import Mathlib

/-!
Verification of the constraint-construction core of a light Bitcoin block
checker built on an R1CS gadget library.

The development shallowly embeds the program over an arbitrary prime-field
modulus `p`, modelling field elements as `ZMod p` and bytes as `Fin 256`.
Gadgets of the underlying constraint-system library (SHA-256 circuit,
`enforce_cmp`, `to_bits_le`, `to_constraint_field`) are external collaborators
of the repository; they are modelled at the level of their documented
input/output and satisfaction behaviour, while the repository's own code
(`get_target`, `BlockTargetGadget::calculate_target`,
`Base256Gadget::calculate_base256_exponent`,
`BTCBlockCheckerGadget::check_block`, and the `AllocVar` implementations of
`BlockHashVar` / `BlockHeaderVar`) is translated definition by definition.

Satisfaction of the emitted constraint system is modelled at the assignment
produced by circuit construction (the value the library's `is_satisfied`
check inspects); where a claim quantifies over all satisfying assignments of
a gadget, a dedicated relation over the free witness choices is given
(`base256Sat`).
-/

/-- Fuel-driven bit length: `bitLenFuel fuel n` is the number of binary digits
of `n`, provided `n ≤ fuel`.  Written with structural fuel recursion so that
the kernel can evaluate it on concrete numerals. -/
def bitLenFuel : ℕ → ℕ → ℕ
  | 0, _ => 0
  | fuel + 1, n => if n = 0 then 0 else bitLenFuel fuel (n / 2) + 1

/-- Model of the gadget library's `F::MODULUS_BIT_SIZE`: the size of the
modulus `p` in bits. -/
def modulusBitSize (p : ℕ) : ℕ :=
  bitLenFuel p p

/-- The first `k` binary digits of `n`, least-significant bit first. -/
def natToBitsLe (n k : ℕ) : List Bool :=
  (List.range k).map n.testBit

/-- Value of a little-endian bit string. -/
def bitsLeToNat : List Bool → ℕ
  | [] => 0
  | b :: bs => (if b then 1 else 0) + 2 * bitsLeToNat bs

/-- Model of `FpVar::to_bits_le` on a field element: the unique
little-endian decomposition of the canonical representative into
`MODULUS_BIT_SIZE` bits (the library enforces the decomposition to be the
canonical one, so its value is a function of the element). -/
def toBitsLe (p : ℕ) (x : ZMod p) : List Bool :=
  natToBitsLe x.val (modulusBitSize p)

/-- Little-endian packing of bytes into a field element:
`b₀ + 256·b₁ + 256²·b₂ + ⋯`.  This is how the gadget library turns a chunk
of byte variables into one field element. -/
def packBytesLe (p : ℕ) : List (Fin 256) → ZMod p
  | [] => 0
  | b :: bs => ((b : ℕ) : ZMod p) + 256 * packBytesLe p bs

/-- Model of element `[0]` of `to_constraint_field` on a byte vector: the
library splits the bytes into chunks of `(MODULUS_BIT_SIZE - 1) / 8` bytes
and packs each chunk little-endian; the program only ever reads the first
element, i.e. the packing of the first chunk. -/
def bytesToConstraintFieldHead (p : ℕ) (bytes : List (Fin 256)) : ZMod p :=
  packBytesLe p (bytes.take ((modulusBitSize p - 1) / 8))

/-- Little-endian byte-string value, as a natural number
(`BigUint::from_bytes_le`). -/
def bytesLeToNat256 : List (Fin 256) → ℕ
  | [] => 0
  | b :: bs => (b : ℕ) + 256 * bytesLeToNat256 bs

/-- The loop of `Base256Gadget::calculate_base256_exponent`: for each
exponent bit (least significant first) conditionally select
`result * base` versus `result`, and square `base` on every iteration
regardless of the bit. -/
def base256Loop (p : ℕ) (result base : ZMod p) : List Bool → ZMod p
  | [] => result
  | b :: bs => base256Loop p (if b then result * base else result) (base * base) bs

/-- Honest evaluation of `Base256Gadget::calculate_base256_exponent`
(`src/gadgets/calculate_target_gadget.rs`): value computed by the gadget at
the assignment built during circuit construction.  The accumulator is a
fresh witness assigned `1`, the base is the constant `256`, and the loop
runs over the `MODULUS_BIT_SIZE` bits of the exponent. -/
def calculate_base256_exponent (p : ℕ) (exponent : ZMod p) : ZMod p :=
  base256Loop p 1 256 (toBitsLe p exponent)

/-- Satisfying-assignment semantics of the constraints emitted by
`Base256Gadget::calculate_base256_exponent`.  `r0` is the value taken by the
fresh accumulator witness (`FpVar::new_witness(cs, || Ok(F::from(1)))`
allocates it and assigns `1`, but emits no constraint pinning it); the bit
variables are forced by `to_bits_le` to be the canonical decomposition of
`exponent`; every intermediate select output is then determined, and
`result` is the gadget's output wire. -/
def base256Sat (p : ℕ) (exponent r0 result : ZMod p) : Prop :=
  ∃ bs : List Bool,
    bs.length = modulusBitSize p ∧
    bitsLeToNat bs < p ∧
    ((bitsLeToNat bs : ℕ) : ZMod p) = exponent ∧
    result = base256Loop p r0 256 bs

/-- The adjusted exponent of `BlockTargetGadget::calculate_target`: byte 75
of the header (i.e. `bits[3]` of the 4-byte bits field at 72..76) converted
to a field element through `to_constraint_field`, minus the constant 3 in
the field. -/
def circuitAdjustedExponent (p : ℕ) (header : List (Fin 256)) : ZMod p :=
  bytesToConstraintFieldHead p (((header.drop 72).take 4).drop 3) - 3

/-- Honest evaluation of `BlockTargetGadget::calculate_target`
(`src/gadgets/calculate_target_gadget.rs`): the target field element computed
from the header.  `bits` is `header[72..76]` (the gadget first allocates four
dummy witness bytes and then replaces the vector with clones of the header
variables, so the dummy allocation is dead); the exponent is
`to_constraint_field([bits[3]])[0] - 3`, the mantissa is
`to_constraint_field(bits[0..3])[0]`, and the target is
`mantissa * 256^exponent` via the base-256 gadget. -/
def calculate_target (p : ℕ) (header : List (Fin 256)) : ZMod p :=
  bytesToConstraintFieldHead p (((header.drop 72).take 4).take 3) *
    calculate_base256_exponent p (circuitAdjustedExponent p header)

/-- The adjusted exponent of the native reference `get_target`
(`src/lib.rs`): `exponent as u32 - 3` where `exponent = header[75]`, with
the wrapping (two's-complement, modulo `2^32`) semantics of release-mode
Rust `u32` subtraction. -/
def nativeAdjustedExponent (header : List (Fin 256)) : ℕ :=
  (((header.getD 75 0 : Fin 256) : ℕ) + (2 ^ 32 - 3)) % 2 ^ 32

/-- Native reference `get_target` (`src/lib.rs`): the target as an unbounded
natural number, `mantissa * 256^(exponent - 3)` with
`mantissa = BigUint::from_bytes_le(header[72..75])` and
`exponent = header[75]`. -/
def get_target (header : List (Fin 256)) : ℕ :=
  bytesLeToNat256 ((header.drop 72).take 3) * 256 ^ nativeAdjustedExponent header

/-- Satisfaction of the constraints emitted by
`FpVar::enforce_cmp(other, Ordering::Less, false)`: the checked variant
first enforces that both operands' canonical values are at most
`(p - 1) / 2` and then enforces the strict integer comparison of the
canonical representatives. -/
def enforceCmpLessChecked (p : ℕ) (a b : ZMod p) : Bool :=
  decide (a.val ≤ (p - 1) / 2) && decide (b.val ≤ (p - 1) / 2) && decide (a.val < b.val)

/-- Allocation visibility of a circuit variable (`AllocationMode`). -/
inductive AllocationMode
  | Constant
  | Input
  | Witness
deriving DecidableEq

/-- A byte variable together with the visibility it was allocated under. -/
structure AllocatedByte where
  mode : AllocationMode
  value : Fin 256
deriving DecidableEq

/-- Rust panics raised while allocating circuit variables. -/
inductive AllocationFailure
  | hexParsePanic
deriving DecidableEq

/-- Errors raised while emitting constraints (out-of-range slicing of the
header, and the gadget library's equal-length assertion on vector equality
constraints). -/
inductive EmissionError
  | lengthMismatch
  | sliceOutOfRange
deriving DecidableEq

/-- Value of one hexadecimal digit character, if any. -/
def hexDigitVal (c : Char) : Option ℕ :=
  if '0' ≤ c ∧ c ≤ '9' then some (c.toNat - '0'.toNat)
  else if 'a' ≤ c ∧ c ≤ 'f' then some (c.toNat - 'a'.toNat + 10)
  else if 'A' ≤ c ∧ c ≤ 'F' then some (c.toNat - 'A'.toNat + 10)
  else none

/-- Accumulating hexadecimal parse of a character list. -/
def parseHexChars : List Char → ℕ → Option ℕ
  | [], acc => some acc
  | c :: cs, acc =>
    match hexDigitVal c with
    | none => none
    | some d => parseHexChars cs (acc * 16 + d)

/-- Model of `BigUint::from_str_radix(s, 16)`: fails on the empty string and
on any non-hexadecimal digit, otherwise returns the big-endian value of the
digit string. -/
def parseHexNat (s : String) : Option ℕ :=
  match s.data with
  | [] => none
  | c :: cs => parseHexChars (c :: cs) 0

/-- Big-endian digits of `n` in base 256 (empty for zero), with structural
fuel so the kernel can evaluate on numerals; correct when `n ≤ fuel`. -/
def natToBytesBEAux : ℕ → ℕ → List (Fin 256)
  | 0, _ => []
  | fuel + 1, n =>
    if n = 0 then []
    else natToBytesBEAux fuel (n / 256) ++ [⟨n % 256, Nat.mod_lt _ (by norm_num)⟩]

/-- Model of `BigUint::to_bytes_be`: minimal big-endian byte encoding, with
the single byte `0` for zero.  Leading zero bytes are stripped. -/
def natToBytesBE (n : ℕ) : List (Fin 256) :=
  if n = 0 then [0] else natToBytesBEAux n n

/-- Model of `UInt8::new_witness_vec`: every byte is allocated as a witness. -/
def uint8NewWitnessVec (bytes : List (Fin 256)) : List AllocatedByte :=
  bytes.map fun b => ⟨AllocationMode.Witness, b⟩

/-- Model of `DigestVar::new_variable`: every byte of the digest is allocated under
the mode given by the caller. -/
def digestVarNewVariable (mode : AllocationMode) (bytes : List (Fin 256)) : List AllocatedByte :=
  bytes.map fun b => ⟨mode, b⟩

/-- Model of `BlockHashVar::new_variable` (`src/utils/mod.rs`): parse the hash string
as a base-16 big integer (panicking on a parse failure, modelled as
`AllocationFailure.hexParsePanic`), serialize it to big-endian bytes, and
allocate those bytes as a digest under the given mode.  No length check is
performed anywhere. -/
def BlockHashVarNewVariable (mode : AllocationMode) (s : String) :
    Except AllocationFailure (List AllocatedByte) :=
  match parseHexNat s with
  | none => .error .hexParsePanic
  | some n => .ok (digestVarNewVariable mode (natToBytesBE n))

/-- Model of `BlockHeaderVar::new_variable` (`src/utils/mod.rs`): the header bytes are
always allocated as witnesses via `UInt8::new_witness_vec`; the `mode`
argument is ignored and no length check is performed. -/
def BlockHeaderVarNewVariable (_mode : AllocationMode) (bytes : List (Fin 256)) :
    Except AllocationFailure (List AllocatedByte) :=
  .ok (uint8NewWitnessVec bytes)

/-- Value content of an allocated `BlockVar`: the assigned bytes of the
header variables, of the claimed-hash digest and of the previous-hash
digest. -/
structure BlockVar where
  block_header : List (Fin 256)
  block_hash : List (Fin 256)
  prev_block_hash : List (Fin 256)

/-- Model of `BlockHeaderHashGadget::hash_block_header`
(`src/gadgets/block_header_hash_gadget.rs`): the SHA-256 circuit primitive,
taken as an external parameter `sha`, applied twice. -/
def hash_block_header (sha : List (Fin 256) → List (Fin 256))
    (header : List (Fin 256)) : List (Fin 256) :=
  sha (sha header)

/-- An equality constraint between two byte vectors: the gadget library
asserts the lengths are equal (a panic on mismatch, modelled as
`EmissionError.lengthMismatch`) and otherwise emits byte-wise equality
constraints, whose satisfaction at the built assignment is just equality of
the assigned values. -/
def enforceEqualBytes (xs ys : List (Fin 256)) : Except EmissionError Bool :=
  if xs.length = ys.length then .ok (decide (xs = ys)) else .error .lengthMismatch

/-- Model of `BTCBlockCheckerGadget::check_block` (`src/gadgets/mod.rs`).  The
`Except` layer models the Ok/Err (and panic) behaviour of constraint
emission; the `Bool` payload models whether the emitted constraint system is
satisfied at the assignment built during construction (what
`cs.is_satisfied()` inspects).  Sequentially: (1) double-SHA-256 of the
header constrained equal to the claimed hash, (2) the previous-hash bytes
constrained equal to `header[4..36]` (slicing panics if the header is
shorter than 36), (3) the target decode (slicing `header[72..76]` panics if
the header is shorter than 76) followed by the strict proof-of-work
comparison of the packed claimed hash against the target.  No check
short-circuits any other. -/
def check_block (p : ℕ) (sha : List (Fin 256) → List (Fin 256)) (b : BlockVar) :
    Except EmissionError Bool :=
  match enforceEqualBytes (hash_block_header sha b.block_header) b.block_hash with
  | .error e => .error e
  | .ok c1 =>
    if 36 ≤ b.block_header.length then
      match enforceEqualBytes b.prev_block_hash ((b.block_header.drop 4).take 32) with
      | .error e => .error e
      | .ok c2 =>
        if 76 ≤ b.block_header.length then
          .ok (c1 && c2 &&
            enforceCmpLessChecked p (bytesToConstraintFieldHead p b.block_hash)
              (calculate_target p b.block_header))
        else .error .sliceOutOfRange
    else .error .sliceOutOfRange

/-- Modulus of `ark_vesta::Fr`, the prime field the repository's tests
instantiate every gadget with. -/
def vestaFrModulus : ℕ :=
  28948022309329048855892746252171976963363056481941560715954676764349967630337

/-- An 80-byte header whose bits field is `[1, 0, 0, 0]`: mantissa 1 and
exponent byte 0, so the exponent subtraction underflows. -/
def c1Header : List (Fin 256) :=
  List.replicate 72 0 ++ [1, 0, 0, 0] ++ List.replicate 4 0

/-- An 80-byte header whose bits field is `[1, 0, 0, 3]`: mantissa 1 and
exponent byte 3. -/
def c1WitnessHeader : List (Fin 256) :=
  List.replicate 72 0 ++ [1, 0, 0, 3] ++ List.replicate 4 0

/-- The all-zero 80-byte header (exponent byte 0). -/
def c7Header : List (Fin 256) :=
  List.replicate 80 0

/-- A stand-in for the external SHA-256 circuit primitive that returns a
fixed 32-byte digest, used to instantiate theorems about `check_block` at
concrete inputs. -/
def constSha : List (Fin 256) → List (Fin 256) :=
  fun _ => List.replicate 32 0

/-- A concrete block record: all-zero header, and claimed/previous hashes
equal to the digest `constSha` produces. -/
def c4Block : BlockVar :=
  ⟨List.replicate 80 0, List.replicate 32 0, List.replicate 32 0⟩

/-! ### Arithmetic facts about the bit-length and byte-length functions -/

theorem lt_two_pow_bitLenFuel : ∀ fuel n, n ≤ fuel → n < 2 ^ bitLenFuel fuel n := by
  intro fuel
  induction fuel with
  | zero =>
    intro n hn
    have : n = 0 := by omega
    subst this
    simp [bitLenFuel]
  | succ fuel ih =>
    intro n hn
    by_cases h0 : n = 0
    · subst h0; simp [bitLenFuel]
    · have hself : n / 2 < n := Nat.div_lt_self (by omega) one_lt_two
      have h := ih (n / 2) (by omega)
      simp only [bitLenFuel, h0, if_false]
      rw [pow_succ]
      omega

theorem two_pow_pred_le_bitLenFuel :
    ∀ fuel n, n ≤ fuel → n ≠ 0 → 2 ^ (bitLenFuel fuel n - 1) ≤ n := by
  intro fuel
  induction fuel with
  | zero => intro n hn h0; omega
  | succ fuel ih =>
    intro n hn h0
    simp only [bitLenFuel, h0, if_false]
    by_cases h2 : n / 2 = 0
    · have hz : bitLenFuel fuel (n / 2) = 0 := by
        cases fuel <;> simp [bitLenFuel, h2]
      rw [hz]
      simpa using Nat.one_le_iff_ne_zero.mpr h0
    · have hself : n / 2 < n := Nat.div_lt_self (by omega) one_lt_two
      have h := ih (n / 2) (by omega) h2
      have hpos : 1 ≤ bitLenFuel fuel (n / 2) := by
        cases fuel with
        | zero => omega
        | succ f => simp [bitLenFuel, h2]
      have hsplit : 2 ^ bitLenFuel fuel (n / 2) = 2 * 2 ^ (bitLenFuel fuel (n / 2) - 1) := by
        rw [← pow_succ']
        congr 1
        omega
      simp only [Nat.add_sub_cancel]
      omega

theorem lt_two_pow_modulusBitSize (p : ℕ) : p < 2 ^ modulusBitSize p :=
  lt_two_pow_bitLenFuel p p le_rfl

theorem lt_modulusBitSize_of_le {p k : ℕ} (h : 2 ^ k ≤ p) : k < modulusBitSize p := by
  have := lt_of_le_of_lt h (lt_two_pow_modulusBitSize p)
  exact (Nat.pow_lt_pow_iff_right one_lt_two).mp this

theorem modulusBitSize_eq (p k : ℕ) (h1 : 2 ^ k ≤ p) (h2 : p < 2 ^ (k + 1)) :
    modulusBitSize p = k + 1 := by
  have hp0 : p ≠ 0 := by
    have : (0:ℕ) < 2 ^ k := Nat.pos_pow_of_pos k (by omega)
    omega
  have hl := two_pow_pred_le_bitLenFuel p p le_rfl hp0
  have hkm : k < modulusBitSize p := lt_modulusBitSize_of_le h1
  have hmk : modulusBitSize p - 1 < k + 1 :=
    (Nat.pow_lt_pow_iff_right one_lt_two).mp (lt_of_le_of_lt hl h2)
  omega

theorem toBitsLe_length (p : ℕ) (e : ZMod p) : (toBitsLe p e).length = modulusBitSize p := by
  simp [toBitsLe, natToBitsLe]

theorem bitsLeToNat_natToBitsLe : ∀ k n, bitsLeToNat (natToBitsLe n k) = n % 2 ^ k := by
  intro k
  induction k with
  | zero => intro n; simp [natToBitsLe, bitsLeToNat, Nat.mod_one]
  | succ k ih =>
    intro n
    rw [natToBitsLe, List.range_succ_eq_map, List.map_cons, List.map_map]
    have hmap : (List.range k).map (n.testBit ∘ Nat.succ) = natToBitsLe (n / 2) k := by
      unfold natToBitsLe
      apply List.map_congr_left
      intro i _
      exact Nat.testBit_succ n i
    rw [hmap, bitsLeToNat, ih, Nat.testBit_zero]
    have hsplit : n % (2 * 2 ^ k) = n % 2 + 2 * (n / 2 % 2 ^ k) := Nat.mod_mul
    have hp : (2:ℕ) ^ (k + 1) = 2 * 2 ^ k := by rw [pow_succ]; ring
    rw [hp, hsplit]
    rcases Nat.mod_two_eq_zero_or_one n with h | h <;> simp [h]

theorem base256Loop_eq (p : ℕ) :
    ∀ (bs : List Bool) (r b : ZMod p), base256Loop p r b bs = r * b ^ bitsLeToNat bs := by
  intro bs
  induction bs with
  | nil => intro r b; simp [base256Loop, bitsLeToNat]
  | cons x bs ih =>
    intro r b
    rw [base256Loop, ih, bitsLeToNat]
    cases x <;> simp <;> ring

theorem calculate_base256_exponent_eq (p : ℕ) [NeZero p] (e : ZMod p) :
    calculate_base256_exponent p e = (256 : ZMod p) ^ e.val := by
  unfold calculate_base256_exponent toBitsLe
  rw [base256Loop_eq, bitsLeToNat_natToBitsLe, one_mul]
  congr 1
  exact Nat.mod_eq_of_lt (lt_trans (ZMod.val_lt e) (lt_two_pow_modulusBitSize p))

theorem packBytesLe_eq_cast (p : ℕ) :
    ∀ l : List (Fin 256), packBytesLe p l = ((bytesLeToNat256 l : ℕ) : ZMod p) := by
  intro l
  induction l with
  | nil => simp [packBytesLe, bytesLeToNat256]
  | cons b bs ih =>
    simp only [packBytesLe, bytesLeToNat256]
    rw [ih]
    push_cast
    ring

theorem drop_take_one_getD {α : Type} (d : α) :
    ∀ (l : List α) (n : ℕ), n < l.length → (l.drop n).take 1 = [l.getD n d] := by
  intro l
  induction l with
  | nil => intro n h; simp at h
  | cons a l ih =>
    intro n h
    cases n with
    | zero => simp
    | succ n => simpa using ih n (by simpa using h)

theorem bitsSlice_exponent (header : List (Fin 256)) (hlen : 76 ≤ header.length) :
    ((header.drop 72).take 4).drop 3 = [header.getD 75 0] := by
  rw [List.drop_take, List.drop_drop]
  exact drop_take_one_getD 0 header 75 (by omega)

theorem circuitAdjustedExponent_eq (p : ℕ) (header : List (Fin 256))
    (hlen : 76 ≤ header.length) (hcap : 1 ≤ (modulusBitSize p - 1) / 8) :
    circuitAdjustedExponent p header = (((header.getD 75 0 : Fin 256) : ℕ) : ZMod p) - 3 := by
  unfold circuitAdjustedExponent bytesToConstraintFieldHead
  rw [bitsSlice_exponent header hlen, List.take_of_length_le (by simpa using hcap)]
  simp [packBytesLe]

theorem natToBytesBEAux_length_le :
    ∀ fuel n k, n ≤ fuel → n < 256 ^ k → (natToBytesBEAux fuel n).length ≤ k := by
  intro fuel
  induction fuel with
  | zero =>
    intro n k h1 _
    have : n = 0 := by omega
    subst this
    simp [natToBytesBEAux]
  | succ fuel ih =>
    intro n k h1 h2
    by_cases h0 : n = 0
    · subst h0; simp [natToBytesBEAux]
    · simp only [natToBytesBEAux, h0, if_false, List.length_append, List.length_cons,
        List.length_nil]
      cases k with
      | zero => simp at h2; omega
      | succ k =>
        have hself : n / 256 < n := Nat.div_lt_self (by omega) (by norm_num)
        have hlt : n / 256 < 256 ^ k := by
          rw [Nat.div_lt_iff_lt_mul (by norm_num : (0:ℕ) < 256)]
          calc n < 256 ^ (k + 1) := h2
          _ = 256 ^ k * 256 := by rw [pow_succ]
        have := ih (n / 256) k (by omega) hlt
        omega

theorem lt_length_natToBytesBEAux :
    ∀ fuel n k, n ≤ fuel → 256 ^ k ≤ n → k < (natToBytesBEAux fuel n).length := by
  intro fuel
  induction fuel with
  | zero =>
    intro n k h1 h2
    have : (0:ℕ) < 256 ^ k := Nat.pos_pow_of_pos k (by omega)
    omega
  | succ fuel ih =>
    intro n k h1 h2
    have h0 : n ≠ 0 := by
      have : (0:ℕ) < 256 ^ k := Nat.pos_pow_of_pos k (by omega)
      omega
    simp only [natToBytesBEAux, h0, if_false, List.length_append, List.length_cons,
      List.length_nil]
    cases k with
    | zero => omega
    | succ k =>
      have hself : n / 256 < n := Nat.div_lt_self (by omega) (by norm_num)
      have hge : 256 ^ k ≤ n / 256 := by
        rw [Nat.le_div_iff_mul_le (by norm_num : (0:ℕ) < 256)]
        calc 256 ^ k * 256 = 256 ^ (k + 1) := by rw [pow_succ]
        _ ≤ n := h2
      have := ih (n / 256) k (by omega) hge
      omega

theorem natToBytesBE_length_le_iff (n k : ℕ) (hk : 1 ≤ k) :
    (natToBytesBE n).length ≤ k ↔ n < 256 ^ k := by
  by_cases h0 : n = 0
  · subst h0
    rw [show natToBytesBE 0 = [0] from rfl]
    simp only [List.length_singleton]
    constructor
    · intro _; exact Nat.pos_pow_of_pos k (by omega)
    · intro _; omega
  · unfold natToBytesBE
    rw [if_neg h0]
    constructor
    · intro h
      by_contra hge
      have := lt_length_natToBytesBEAux n n k le_rfl (by omega)
      omega
    · intro h
      exact natToBytesBEAux_length_le n n k le_rfl h

set_option maxRecDepth 40000

theorem modulusBitSize_vesta : modulusBitSize vestaFrModulus = 255 := by decide

theorem cast_mul_pow_256_odd (m e : ℕ) (hm : m = 1) (he : e % 2 = 1) :
    ((m * 256 ^ e : ℕ) : ZMod 257) = 256 := by
  subst hm
  push_cast
  rw [show (256 : ZMod 257) = -1 by decide]
  rw [Odd.neg_one_pow (Nat.odd_iff.mpr he)]
  decide

theorem get_target_eq (header : List (Fin 256)) :
    get_target header
      = bytesLeToNat256 ((header.drop 72).take 3) * 256 ^ nativeAdjustedExponent header :=
  rfl

/-! ### Claim theorems -/

/-- Claim C1, counterexample: the circuit target and the native `get_target`
disagree on an 80-byte header whose exponent byte is 0 (mantissa 1).  Over
`ZMod 257` the circuit computes `256^(257-3) = 1` while the native value
`256^(2^32-3)` maps to `256`: the two target computations are not bit-for-bit
identical on every header, because the circuit's exponent subtraction wraps
modulo the field modulus while the native one wraps modulo `2^32`. -/
theorem c1_counterexample :
    calculate_target 257 c1Header ≠ ((get_target c1Header : ℕ) : ZMod 257) := by
  have hL : calculate_target 257 c1Header = 1 := by decide
  rw [hL, get_target_eq]
  rw [cast_mul_pow_256_odd _ _ (by decide) (by decide)]
  decide

/-- Claim C1 (amended): for every 80-byte header whose bits-exponent byte
(header byte 75) is at least 3, and any modulus of at least `2^24` (so that
`to_constraint_field` packs the 3 mantissa bytes into its first element),
the field element returned by `BlockTargetGadget::calculate_target` equals
the native `get_target` value mapped into the field: mantissa and
byte-order conventions agree, and the exponent subtractions coincide
whenever they do not underflow. -/
theorem c1_target_equiv_of_exponent_ge_three (p : ℕ) (hp : 2 ^ 24 ≤ p)
    (header : List (Fin 256)) (hlen : header.length = 80)
    (hexp : 3 ≤ ((header.getD 75 0 : Fin 256) : ℕ)) :
    calculate_target p header = ((get_target header : ℕ) : ZMod p) := by
  haveI : NeZero p := ⟨by
    have h24 : (0:ℕ) < 2 ^ 24 := by norm_num
    omega⟩
  have hcap3 : 3 ≤ (modulusBitSize p - 1) / 8 := by
    have h := lt_modulusBitSize_of_le hp
    omega
  have he255 : ((header.getD 75 0 : Fin 256) : ℕ) < 256 := (header.getD 75 0).is_lt
  have h256p : (256:ℕ) ≤ p := le_trans (by norm_num) hp
  have hexpval : circuitAdjustedExponent p header
      = ((((header.getD 75 0 : Fin 256) : ℕ) - 3 : ℕ) : ZMod p) := by
    rw [circuitAdjustedExponent_eq p header (by omega) (by omega)]
    rw [Nat.cast_sub hexp]
    norm_num
  have hval : ((((header.getD 75 0 : Fin 256) : ℕ) - 3 : ℕ) : ZMod p).val
      = ((header.getD 75 0 : Fin 256) : ℕ) - 3 :=
    ZMod.val_cast_of_lt (by omega)
  have hbase : calculate_base256_exponent p (circuitAdjustedExponent p header)
      = (256 : ZMod p) ^ (((header.getD 75 0 : Fin 256) : ℕ) - 3) := by
    rw [hexpval, calculate_base256_exponent_eq, hval]
  have hnat : nativeAdjustedExponent header = ((header.getD 75 0 : Fin 256) : ℕ) - 3 := by
    unfold nativeAdjustedExponent
    rw [show ((header.getD 75 0 : Fin 256) : ℕ) + (2 ^ 32 - 3)
        = 2 ^ 32 + (((header.getD 75 0 : Fin 256) : ℕ) - 3) by omega]
    rw [Nat.add_mod_left]
    exact Nat.mod_eq_of_lt (by omega)
  have hmant : ((header.drop 72).take 4).take 3 = (header.drop 72).take 3 := by
    rw [List.take_take]
    norm_num
  have hmantissa : bytesToConstraintFieldHead p (((header.drop 72).take 4).take 3)
      = ((bytesLeToNat256 ((header.drop 72).take 3) : ℕ) : ZMod p) := by
    rw [hmant]
    unfold bytesToConstraintFieldHead
    rw [List.take_of_length_le (by simp [List.length_take, List.length_drop, hlen]; omega)]
    exact packBytesLe_eq_cast p _
  unfold calculate_target get_target
  rw [hmantissa, hbase, hnat]
  push_cast
  ring

/-- Witness for C1 (amended) at the modulus `2^24`, on an 80-byte header with
bits field `[1, 0, 0, 3]`. -/
theorem c1_witness :
    calculate_target (2 ^ 24) c1WitnessHeader
      = ((get_target c1WitnessHeader : ℕ) : ZMod (2 ^ 24)) :=
  c1_target_equiv_of_exponent_ge_three (2 ^ 24) le_rfl c1WitnessHeader (by decide) (by decide)

/-- Claim C2: the initial accumulator of
`Base256Gadget::calculate_base256_exponent` is only witness-assigned, never
enforced.  Over `ZMod 101` with exponent 0, the assignment that sets the
fresh accumulator witness to 2 satisfies every emitted constraint and makes
the gadget output 2, which differs both from 1 and from
`256^0 = 1`: the claim's assertion that no satisfying assignment has an
initial accumulator other than 1 is false of the code. -/
theorem c2_unconstrained_accumulator :
    base256Sat 101 0 2 2 ∧ (2 : ZMod 101) ≠ 1 ∧ (2 : ZMod 101) ≠ 256 ^ (0 : ZMod 101).val :=
  ⟨⟨List.replicate 7 false, by decide, by decide, by decide, by decide⟩, by decide, by decide⟩

/-- Claim C3: under the precondition that the modulus exceeds `2^256`, the
proof-of-work comparison packs the full 32-byte digest into the first
`to_constraint_field` element, and the emitted strict comparison is
unsatisfied when the packed hash equals the target, unsatisfied when it
exceeds the target, and satisfied only when it is strictly below the
target. -/
theorem c3_pow_strict_comparison (p : ℕ) (hp : 2 ^ 256 < p) (hash : List (Fin 256))
    (hlen : hash.length = 32) (target : ZMod p) :
    bytesToConstraintFieldHead p hash = packBytesLe p hash ∧
    (bytesToConstraintFieldHead p hash = target →
      enforceCmpLessChecked p (bytesToConstraintFieldHead p hash) target = false) ∧
    (target.val < (bytesToConstraintFieldHead p hash).val →
      enforceCmpLessChecked p (bytesToConstraintFieldHead p hash) target = false) ∧
    (enforceCmpLessChecked p (bytesToConstraintFieldHead p hash) target = true →
      (bytesToConstraintFieldHead p hash).val < target.val) := by
  have hfull : bytesToConstraintFieldHead p hash = packBytesLe p hash := by
    unfold bytesToConstraintFieldHead
    have h := lt_modulusBitSize_of_le (le_of_lt hp)
    rw [List.take_of_length_le (by rw [hlen]; omega)]
  refine ⟨hfull, ?_, ?_, ?_⟩
  · intro heq
    rw [heq]
    simp [enforceCmpLessChecked, lt_irrefl]
  · intro hlt
    have hn : ¬ (bytesToConstraintFieldHead p hash).val < target.val := by omega
    simp [enforceCmpLessChecked, hn]
  · intro hb
    simp only [enforceCmpLessChecked, Bool.and_eq_true, decide_eq_true_eq] at hb
    exact hb.2

/-- Witness for C3 at the modulus `2^256 + 1` with the all-zero 32-byte
digest and target 0 (the boundary case: packed hash equal to target is
rejected). -/
theorem c3_witness :
    enforceCmpLessChecked (2 ^ 256 + 1)
      (bytesToConstraintFieldHead (2 ^ 256 + 1) (List.replicate 32 0)) 0 = false :=
  (c3_pow_strict_comparison (2 ^ 256 + 1) (by norm_num) (List.replicate 32 0) (by simp) 0).2.1
    (by decide)

/-- Claim C4: for every well-formed block record (80-byte header, 32-byte
digests, 32-byte hash primitive), `check_block` emits the hash check, the
link check and the target-decode-plus-comparison into the one system with no
short-circuit, returns Ok, and the resulting system is satisfied exactly
when all three predicates hold (their logical AND). -/
theorem c4_check_block_conjunction (p : ℕ) (sha : List (Fin 256) → List (Fin 256))
    (hsha : ∀ xs, (sha xs).length = 32) (b : BlockVar)
    (hh : b.block_header.length = 80) (hbh : b.block_hash.length = 32)
    (hpr : b.prev_block_hash.length = 32) :
    check_block p sha b =
      .ok (decide (hash_block_header sha b.block_header = b.block_hash) &&
        decide (b.prev_block_hash = (b.block_header.drop 4).take 32) &&
        enforceCmpLessChecked p (bytesToConstraintFieldHead p b.block_hash)
          (calculate_target p b.block_header)) ∧
    (check_block p sha b = .ok true ↔
      (hash_block_header sha b.block_header = b.block_hash ∧
        b.prev_block_hash = (b.block_header.drop 4).take 32 ∧
        enforceCmpLessChecked p (bytesToConstraintFieldHead p b.block_hash)
          (calculate_target p b.block_header) = true)) := by
  have h1 : (hash_block_header sha b.block_header).length = b.block_hash.length := by
    unfold hash_block_header
    rw [hsha, hbh]
  have e1 : enforceEqualBytes (hash_block_header sha b.block_header) b.block_hash
      = .ok (decide (hash_block_header sha b.block_header = b.block_hash)) := by
    unfold enforceEqualBytes
    rw [if_pos h1]
  have h2 : b.prev_block_hash.length = ((b.block_header.drop 4).take 32).length := by
    simp [List.length_take, List.length_drop, hh, hpr]
  have e2 : enforceEqualBytes b.prev_block_hash ((b.block_header.drop 4).take 32)
      = .ok (decide (b.prev_block_hash = (b.block_header.drop 4).take 32)) := by
    unfold enforceEqualBytes
    rw [if_pos h2]
  have hck : check_block p sha b =
      .ok (decide (hash_block_header sha b.block_header = b.block_hash) &&
        decide (b.prev_block_hash = (b.block_header.drop 4).take 32) &&
        enforceCmpLessChecked p (bytesToConstraintFieldHead p b.block_hash)
          (calculate_target p b.block_header)) := by
    unfold check_block
    rw [e1, e2]
    simp only [hh]
    norm_num
  refine ⟨hck, ?_⟩
  rw [hck]
  simp only [Except.ok.injEq, Bool.and_eq_true, decide_eq_true_eq, and_assoc]

/-- Witness for C4 on a concrete block (all-zero header, digests equal to
the stand-in hash primitive's output) over `ZMod 101`. -/
theorem c4_witness :
    check_block 101 constSha c4Block =
      .ok (decide (hash_block_header constSha c4Block.block_header = c4Block.block_hash) &&
        decide (c4Block.prev_block_hash = (c4Block.block_header.drop 4).take 32) &&
        enforceCmpLessChecked 101 (bytesToConstraintFieldHead 101 c4Block.block_hash)
          (calculate_target 101 c4Block.block_header)) ∧
    (check_block 101 constSha c4Block = .ok true ↔
      (hash_block_header constSha c4Block.block_header = c4Block.block_hash ∧
        c4Block.prev_block_hash = (c4Block.block_header.drop 4).take 32 ∧
        enforceCmpLessChecked 101 (bytesToConstraintFieldHead 101 c4Block.block_hash)
          (calculate_target 101 c4Block.block_header) = true)) :=
  c4_check_block_conjunction 101 constSha (fun xs => by simp [constSha]) c4Block
    (by decide) (by decide) (by decide)

/-- Claim C5: the value returned by
`Base256Gadget::calculate_base256_exponent` is 256 raised to the canonical
integer representative of the exponent, reduced in the field. -/
theorem c5_base256_exponent_value (p : ℕ) [NeZero p] (e : ZMod p) :
    calculate_base256_exponent p e = (256 : ZMod p) ^ e.val :=
  calculate_base256_exponent_eq p e

/-- Witness for C5 over `ZMod 101` at exponent 5. -/
theorem c5_witness :
    calculate_base256_exponent 101 (5 : ZMod 101) = (256 : ZMod 101) ^ (5 : ZMod 101).val :=
  @c5_base256_exponent_value 101 ⟨by norm_num⟩ 5

/-- Claim C6, counterexample: over the repository's test field
(`ark_vesta::Fr`), the exponent's bit decomposition has 255 elements, not
the 8 the claim asserts: `to_bits_le` decomposes the full field element, not
a byte-sized range. -/
theorem c6_counterexample :
    (toBitsLe vestaFrModulus (3 : ZMod vestaFrModulus)).length = 255 ∧ (255 : ℕ) ≠ 8 :=
  ⟨by rw [toBitsLe_length]; exact modulusBitSize_vesta, by decide⟩

/-- Claim C6 (amended): the adjusted exponent is decomposed least-significant
bit first into exactly `MODULUS_BIT_SIZE` bits (the bit length of the
modulus), so the exponentiation loop's iteration count equals that bound,
which is fixed at circuit-construction time and independent of the
witnessed exponent value. -/
theorem c6_bit_decomposition_length (p : ℕ) (e : ZMod p) :
    (toBitsLe p e).length = modulusBitSize p :=
  toBitsLe_length p e

/-- Claim C7, counterexample: on the all-zero header (exponent byte 0), the
native reference's adjusted exponent is `2^32 - 3` (Rust `u32` wraparound),
not the field-wrapped value `p - 3` the circuit computes over the
repository's test field, so the claim that both sides wrap via
field-arithmetic wraparound is false. -/
theorem c7_counterexample :
    nativeAdjustedExponent c7Header = 2 ^ 32 - 3 ∧
    (circuitAdjustedExponent vestaFrModulus c7Header).val = vestaFrModulus - 3 ∧
    ((nativeAdjustedExponent c7Header : ℕ) : ZMod vestaFrModulus) ≠
      circuitAdjustedExponent vestaFrModulus c7Header :=
  ⟨by decide, by decide, by decide⟩

/-- Claim C7 (amended): for every header whose bits-exponent byte is less
than 3, both target computations perform the subtraction with no underflow
check and complete without error, but they wrap differently: the circuit's
adjusted exponent wraps modulo the field modulus to `p - (3 - e)` while the
native `u32` subtraction wraps modulo `2^32` to `2^32 - (3 - e)`. -/
theorem c7_underflow_wraparound (p : ℕ) (hp : 2 ^ 24 ≤ p) (header : List (Fin 256))
    (hlen : header.length = 80) (hexp : ((header.getD 75 0 : Fin 256) : ℕ) < 3) :
    (circuitAdjustedExponent p header).val = p - (3 - ((header.getD 75 0 : Fin 256) : ℕ)) ∧
    nativeAdjustedExponent header = 2 ^ 32 - (3 - ((header.getD 75 0 : Fin 256) : ℕ)) := by
  have hcap : 1 ≤ (modulusBitSize p - 1) / 8 := by
    have h := lt_modulusBitSize_of_le hp
    omega
  have hppos : (0:ℕ) < p := by
    have h24 : (0:ℕ) < 2 ^ 24 := by norm_num
    omega
  constructor
  · rw [circuitAdjustedExponent_eq p header (by omega) hcap]
    have h24 : (2:ℕ) ^ 24 ≤ p := hp
    have h1 : (((header.getD 75 0 : Fin 256) : ℕ) : ZMod p) - 3
        = ((p - (3 - ((header.getD 75 0 : Fin 256) : ℕ)) : ℕ) : ZMod p) := by
      rw [Nat.cast_sub (by omega : 3 - ((header.getD 75 0 : Fin 256) : ℕ) ≤ p)]
      rw [Nat.cast_sub (by omega : ((header.getD 75 0 : Fin 256) : ℕ) ≤ 3)]
      rw [ZMod.natCast_self]
      push_cast
      ring
    rw [h1]
    exact ZMod.val_cast_of_lt (by omega)
  · unfold nativeAdjustedExponent
    rw [Nat.mod_eq_of_lt (by omega)]
    omega

/-- Witness for C7 (amended) at the modulus `2^24` on the all-zero header. -/
theorem c7_witness :
    (circuitAdjustedExponent (2 ^ 24) c7Header).val =
      2 ^ 24 - (3 - ((c7Header.getD 75 0 : Fin 256) : ℕ)) ∧
    nativeAdjustedExponent c7Header = 2 ^ 32 - (3 - ((c7Header.getD 75 0 : Fin 256) : ℕ)) :=
  c7_underflow_wraparound (2 ^ 24) le_rfl c7Header (by decide) (by decide)

/-- Claim C8, counterexample: a header of the wrong length (3 bytes) is
allocated without any error, and a hash string of the wrong length ("ff",
one byte) is allocated without any error, so wrong-length format errors are
not detected at variable-allocation time. -/
theorem c8_counterexample :
    BlockHeaderVarNewVariable AllocationMode.Witness (List.replicate 3 0) =
      .ok (List.replicate 3 ⟨AllocationMode.Witness, 0⟩) ∧
    BlockHashVarNewVariable AllocationMode.Witness "ff" = .ok [⟨AllocationMode.Witness, 255⟩] :=
  ⟨rfl, rfl⟩

/-- Claim C8 (amended): header allocation never fails, whatever the byte
length, so wrong header lengths are not format-checked at allocation; a
non-hexadecimal hash string aborts at allocation time (the parse panics)
before any constraint is emitted. -/
theorem c8_allocation_behavior (mode : AllocationMode) (bytes : List (Fin 256)) (s : String)
    (hbad : parseHexNat s = none) :
    BlockHeaderVarNewVariable mode bytes = .ok (uint8NewWitnessVec bytes) ∧
    BlockHashVarNewVariable mode s = .error .hexParsePanic := by
  refine ⟨rfl, ?_⟩
  unfold BlockHashVarNewVariable
  rw [hbad]

/-- Witness for C8 (amended) on a 3-byte header and the non-hexadecimal
string "zz". -/
theorem c8_witness :
    BlockHeaderVarNewVariable AllocationMode.Witness (List.replicate 3 0) =
      .ok (uint8NewWitnessVec (List.replicate 3 0)) ∧
    BlockHashVarNewVariable AllocationMode.Witness "zz" = .error .hexParsePanic :=
  c8_allocation_behavior AllocationMode.Witness (List.replicate 3 0) "zz" (by decide)

/-- Claim C9: `BlockHeaderVar::new_variable` allocates every header byte as
a witness whatever allocation mode it is given, while
`BlockHashVar::new_variable` allocates every digest byte under the mode it
is given. -/
theorem c9_allocation_modes (mode : AllocationMode) (bytes : List (Fin 256)) (s : String)
    (hl hh : List AllocatedByte)
    (h1 : BlockHeaderVarNewVariable mode bytes = .ok hl)
    (h2 : BlockHashVarNewVariable mode s = .ok hh) :
    (hl.all fun ab => ab.mode == AllocationMode.Witness) = true ∧
    (hh.all fun ab => ab.mode == mode) = true := by
  constructor
  · unfold BlockHeaderVarNewVariable at h1
    injection h1 with h1
    subst h1
    simp only [uint8NewWitnessVec, List.all_eq_true]
    intro x hx
    obtain ⟨b, _, rfl⟩ := List.mem_map.mp hx
    rfl
  · unfold BlockHashVarNewVariable at h2
    cases hp : parseHexNat s with
    | none => rw [hp] at h2; simp at h2
    | some n =>
      rw [hp] at h2
      injection h2 with h2
      subst h2
      simp only [digestVarNewVariable, List.all_eq_true]
      intro x hx
      obtain ⟨b, _, rfl⟩ := List.mem_map.mp hx
      simp

/-- Witness for C9 with constant mode, a 3-byte header and the hash string
"ff". -/
theorem c9_witness :
    ((uint8NewWitnessVec (List.replicate 3 0)).all
      fun ab => ab.mode == AllocationMode.Witness) = true ∧
    ((digestVarNewVariable AllocationMode.Constant (natToBytesBE 255)).all
      fun ab => ab.mode == AllocationMode.Constant) = true :=
  c9_allocation_modes AllocationMode.Constant (List.replicate 3 0) "ff"
    (uint8NewWitnessVec (List.replicate 3 0))
    (digestVarNewVariable AllocationMode.Constant (natToBytesBE 255)) rfl rfl

/-- Claim C10: the digest allocated by `BlockHashVar::new_variable` has
fewer than 32 byte-variables exactly when the parsed hash value is below
`2^248`, because the big-endian serialization strips leading zero bytes; in
particular a 32-byte digest forces a value of at least `2^248`. -/
theorem c10_digest_length (mode : AllocationMode) (s : String) (n : ℕ) (hh : List AllocatedByte)
    (hs : parseHexNat s = some n) (hok : BlockHashVarNewVariable mode s = .ok hh) :
    hh.length < 32 ↔ n < 2 ^ 248 := by
  unfold BlockHashVarNewVariable at hok
  rw [hs] at hok
  injection hok with hok
  subst hok
  have hlen : (digestVarNewVariable mode (natToBytesBE n)).length = (natToBytesBE n).length := by
    simp [digestVarNewVariable]
  rw [hlen]
  have h31 := natToBytesBE_length_le_iff n 31 (by norm_num)
  have h2 : (2:ℕ) ^ 248 = 256 ^ 31 := by
    rw [show (256:ℕ) = 2 ^ 8 from rfl, ← pow_mul]
  rw [h2]
  constructor
  · intro h
    exact h31.mp (by omega)
  · intro h
    have := h31.mpr h
    omega

/-- Witness for C10 on the hash string "ff" (value 255, one digest byte). -/
theorem c10_witness :
    (digestVarNewVariable AllocationMode.Witness (natToBytesBE 255)).length < 32 ↔
      (255 : ℕ) < 2 ^ 248 :=
  c10_digest_length AllocationMode.Witness "ff" 255 _ rfl rfl
